import Mathlib

/-!
Shallow embedding of `src/face_encoding/encoding.rs` from the
`dlib-face-recognition` crate.

The Rust type `FaceEncoding` wraps a `dlib::matrix<double,0,1>` (a
dynamically sized column vector of doubles).  We model the wrapped matrix
as a `List ℝ` of its entries in index order, reading `f64` arithmetic as
ideal real arithmetic (rounding, NaN and signed zeros are not modelled).
All operations of the Rust type are pure functions on this value type:
the source exposes no mutating method (`distance`, `to_elements`, `deref`
and `eq` take `&self`), so immutability is by construction in the model.
-/

namespace DlibFace

/-- Model of the Rust struct `FaceEncoding`, which owns a
`dlib::matrix<double,0,1>` in its `inner` field.  The matrix is modelled
as the list of its entries in index order. -/
structure FaceEncoding where
  inner : List ℝ

/-- Model of `matrix->size()`: the number of entries of the wrapped
matrix. -/
def FaceEncoding.size (self : FaceEncoding) : ℕ :=
  self.inner.length

/-- Model of `FaceEncoding::new_from_scalar`: the C++ body allocates
`dlib::matrix<double,0,1>(128)` and writes `scalar` at every index
`0 <= i < 128`, i.e. the result holds 128 copies of the scalar. -/
def FaceEncoding.new_from_scalar (scalar : ℝ) : FaceEncoding :=
  ⟨List.replicate 128 scalar⟩

/-- Model of `FaceEncoding::new`: the C++ body allocates
`dlib::matrix<double,0,1>(128)` and writes `elements[i]` at every index
`0 <= i < 128`.  The Rust argument `&[f64; 128]` is modelled as a function
`Fin 128 → ℝ`. -/
def FaceEncoding.new (elements : Fin 128 → ℝ) : FaceEncoding :=
  ⟨List.ofFn elements⟩

/-- Model of dlib column-vector subtraction `*self - *other`, entrywise.
dlib requires the operands to have equal dimensions (a debug assertion);
`List.zipWith` silently truncates instead, which agrees with dlib whenever
both operands satisfy the 128-element invariant. -/
def matSub (a b : List ℝ) : List ℝ :=
  List.zipWith (fun x y => x - y) a b

/-- Model of `dlib::length` on a column vector: the square root of the
sum of the squared entries (the Euclidean norm). -/
noncomputable def dlibLength (m : List ℝ) : ℝ :=
  Real.sqrt ((m.map fun x => x ^ 2).sum)

/-- Model of `FaceEncoding::distance`, whose C++ body is
`return dlib::length(*self - *other);`. -/
noncomputable def FaceEncoding.distance (self other : FaceEncoding) : ℝ :=
  dlibLength (matSub self.inner other.inner)

/-- Model of `<FaceEncoding as Deref>::deref`: when `matrix->size()` is
`0` the empty slice is returned, otherwise the slice of all `size()`
entries starting at `&(*matrix)(0)`. -/
def FaceEncoding.deref (self : FaceEncoding) : List ℝ :=
  if self.inner.length = 0 then [] else self.inner

/-- Model of `FaceEncoding::to_elements`: a 128-element array initialised
with `0.0` whose entry `i` is overwritten with `(*self)(i)` for
`0 <= i < 128` (an out-of-range read, impossible under the 128-element
invariant, keeps the initial `0`). -/
def FaceEncoding.to_elements (self : FaceEncoding) : Fin 128 → ℝ :=
  fun i => self.inner.getD i 0

/-- Model of `<FaceEncoding as PartialEq>::eq`, whose body is
`self.deref().eq(other.deref())`: slice equality, which holds exactly when
the two dereferenced sequences coincide (same length and same entries). -/
def FaceEncoding.eq (self other : FaceEncoding) : Prop :=
  self.deref = other.deref

/-- Size is the length of the modelled entry list. -/
lemma size_def (a : FaceEncoding) : a.size = a.inner.length :=
  rfl

/-- Dereferencing yields exactly the entry list: when the matrix is empty
both branches of the conditional are the empty list. -/
lemma deref_eq_inner (a : FaceEncoding) : a.deref = a.inner := by
  by_cases h : a.inner.length = 0
  · simp [FaceEncoding.deref, h, List.length_eq_zero.mp h]
  · simp [FaceEncoding.deref, h]

/-- Slice equality of two encodings is equality of the wrapped entry
lists. -/
lemma eq_iff_inner (a b : FaceEncoding) : a.eq b ↔ a.inner = b.inner := by
  unfold FaceEncoding.eq
  rw [deref_eq_inner, deref_eq_inner]

/-- Summing a `zipWith` of two lists of length `n` is the range sum of the
combined entries. -/
lemma sum_zipWith_eq_sum_range (f : ℝ → ℝ → ℝ) :
    ∀ (n : ℕ) (a b : List ℝ), a.length = n → b.length = n →
      (List.zipWith f a b).sum = ∑ i ∈ Finset.range n, f (a.getD i 0) (b.getD i 0) := by
  intro n
  induction n with
  | zero =>
    intro a b ha hb
    rw [List.length_eq_zero] at ha hb
    subst ha
    subst hb
    simp
  | succ m ih =>
    intro a b ha hb
    match a, b with
    | [], _ => simp at ha
    | _ :: _, [] => simp at hb
    | x :: xs, y :: ys =>
      rw [List.zipWith_cons_cons, List.sum_cons,
        ih xs ys (by simpa using ha) (by simpa using hb),
        Finset.sum_range_succ']
      simp only [List.getD_cons_succ, List.getD_cons_zero]
      ring

/-- The distance of two 128-element encodings is the square root of the
sum of the 128 squared entry differences. -/
lemma distance_eq_sqrt_sum (a b : FaceEncoding)
    (ha : a.size = 128) (hb : b.size = 128) :
    a.distance b =
      Real.sqrt (∑ i ∈ Finset.range 128, (a.inner.getD i 0 - b.inner.getD i 0) ^ 2) := by
  unfold FaceEncoding.distance dlibLength matSub
  rw [List.map_zipWith,
    sum_zipWith_eq_sum_range (fun x y => (x - y) ^ 2) 128 a.inner b.inner
      (by rw [← size_def a, ha]) (by rw [← size_def b, hb])]

/-- Equality of two 128-element encodings is entrywise equality at all
128 indices. -/
lemma eq_iff_forall_getD (a b : FaceEncoding)
    (ha : a.size = 128) (hb : b.size = 128) :
    a.eq b ↔ ∀ i : Fin 128, a.inner.getD i 0 = b.inner.getD i 0 := by
  rw [eq_iff_inner]
  constructor
  · intro h i
    rw [h]
  · intro h
    apply List.ext_getElem
    · rw [← size_def a, ← size_def b, ha, hb]
    · intro n h1 h2
      have hn : n < 128 := by
        rw [← ha, size_def]
        exact h1
      have hi := h ⟨n, hn⟩
      rwa [List.getD_eq_getElem _ _ h1, List.getD_eq_getElem _ _ h2] at hi

/-- Every encoding is at distance zero from itself: each squared entry
difference vanishes. -/
lemma distance_self (c : FaceEncoding) : c.distance c = 0 := by
  have hz : ((matSub c.inner c.inner).map fun x => x ^ 2).sum = 0 := by
    apply List.sum_eq_zero
    intro x hx
    rw [List.mem_map] at hx
    obtain ⟨y, hy, rfl⟩ := hx
    unfold matSub at hy
    rw [List.zipWith_same, List.mem_map] at hy
    obtain ⟨z, hz2, rfl⟩ := hy
    simp
  unfold FaceEncoding.distance dlibLength
  rw [hz, Real.sqrt_zero]

/-- C1: for every pair of `FaceEncoding` values `a` and `b` (both carrying
the 128-element invariant), `distance a b` is the Euclidean (L2) norm of
the element-wise difference vector, i.e. the square root of the sum over
`i` in `0..128` of `(a_i - b_i) ^ 2`. -/
theorem distance_is_l2_norm (a b : FaceEncoding)
    (ha : a.size = 128) (hb : b.size = 128) :
    a.distance b =
      Real.sqrt (∑ i : Fin 128, (a.to_elements i - b.to_elements i) ^ 2) := by
  rw [distance_eq_sqrt_sum a b ha hb,
    ← Fin.sum_univ_eq_sum_range
      (fun i => (a.inner.getD i 0 - b.inner.getD i 0) ^ 2) 128]
  rfl

/-- Witness for C1 at the concrete encodings of scalars `0` and `1`. -/
theorem distance_is_l2_norm_witness :
    (FaceEncoding.new_from_scalar 0).distance (FaceEncoding.new_from_scalar 1) =
      Real.sqrt (∑ i : Fin 128,
        ((FaceEncoding.new_from_scalar 0).to_elements i -
          (FaceEncoding.new_from_scalar 1).to_elements i) ^ 2) :=
  distance_is_l2_norm (FaceEncoding.new_from_scalar 0) (FaceEncoding.new_from_scalar 1)
    (by simp only [FaceEncoding.new_from_scalar, FaceEncoding.size, List.length_replicate])
    (by simp only [FaceEncoding.new_from_scalar, FaceEncoding.size, List.length_replicate])

/-- C2: both constructors produce encodings with exactly 128 elements, and
the exposed read operations leave that length unchanged: dereferencing
exposes exactly `size` elements and `to_elements` always yields 128
values.  No operation mutates an encoding: in this model every operation
is a pure function of the encoding value, mirroring the `&self` receivers
of the source. -/
theorem encoding_length_invariant (f : Fin 128 → ℝ) (s : ℝ) :
    (FaceEncoding.new f).size = 128 ∧
      (FaceEncoding.new_from_scalar s).size = 128 ∧
      (∀ a : FaceEncoding, a.deref.length = a.size) ∧
      (∀ a : FaceEncoding, (List.ofFn a.to_elements).length = 128) := by
  refine ⟨?_, ?_, ?_, ?_⟩
  · simp only [FaceEncoding.new, FaceEncoding.size, List.length_ofFn]
  · simp only [FaceEncoding.new_from_scalar, FaceEncoding.size, List.length_replicate]
  · intro a
    rw [deref_eq_inner]
    rfl
  · intro a
    rw [List.length_ofFn]

/-- C3: two 128-element encodings are equal exactly when all 128
corresponding elements are equal; in particular two encodings are unequal
whenever at least one element differs. -/
theorem eq_iff_all_elements_equal (a b : FaceEncoding)
    (ha : a.size = 128) (hb : b.size = 128) :
    a.eq b ↔ ∀ i : Fin 128, a.to_elements i = b.to_elements i := by
  rw [eq_iff_forall_getD a b ha hb]
  rfl

/-- Witness for C3 at the concrete encodings of scalars `0` and `1`. -/
theorem eq_iff_all_elements_equal_witness :
    (FaceEncoding.new_from_scalar 0).eq (FaceEncoding.new_from_scalar 1) ↔
      ∀ i : Fin 128,
        (FaceEncoding.new_from_scalar 0).to_elements i =
          (FaceEncoding.new_from_scalar 1).to_elements i :=
  eq_iff_all_elements_equal (FaceEncoding.new_from_scalar 0) (FaceEncoding.new_from_scalar 1)
    (by simp only [FaceEncoding.new_from_scalar, FaceEncoding.size, List.length_replicate])
    (by simp only [FaceEncoding.new_from_scalar, FaceEncoding.size, List.length_replicate])

/-- C4: for 128-element encodings the distance is zero exactly when the
encodings are equal; every encoding has distance zero from itself; and
every scalar-built encoding equals itself and is at distance zero from
itself. -/
theorem distance_eq_zero_iff_eq (a b : FaceEncoding)
    (ha : a.size = 128) (hb : b.size = 128) :
    (a.distance b = 0 ↔ a.eq b) ∧ a.distance a = 0 ∧
      ∀ s : ℝ, (FaceEncoding.new_from_scalar s).eq (FaceEncoding.new_from_scalar s) ∧
        (FaceEncoding.new_from_scalar s).distance (FaceEncoding.new_from_scalar s) = 0 := by
  refine ⟨?_, distance_self a, fun s => ⟨?_, distance_self _⟩⟩
  · rw [distance_eq_sqrt_sum a b ha hb,
      Real.sqrt_eq_zero (Finset.sum_nonneg fun i _ => sq_nonneg _),
      Finset.sum_eq_zero_iff_of_nonneg fun i _ => sq_nonneg _,
      eq_iff_forall_getD a b ha hb]
    constructor
    · intro h i
      have hi := h i (Finset.mem_range.mpr i.isLt)
      rwa [sq_eq_zero_iff, sub_eq_zero] at hi
    · intro h i hi
      rw [sq_eq_zero_iff, sub_eq_zero]
      exact h ⟨i, Finset.mem_range.mp hi⟩
  · rw [eq_iff_inner]

/-- Witness for C4 at the concrete encodings of scalars `0` and `1`. -/
theorem distance_eq_zero_iff_eq_witness :
    (((FaceEncoding.new_from_scalar 0).distance (FaceEncoding.new_from_scalar 1) = 0 ↔
      (FaceEncoding.new_from_scalar 0).eq (FaceEncoding.new_from_scalar 1)) ∧
      (FaceEncoding.new_from_scalar 0).distance (FaceEncoding.new_from_scalar 0) = 0 ∧
      ∀ s : ℝ, (FaceEncoding.new_from_scalar s).eq (FaceEncoding.new_from_scalar s) ∧
        (FaceEncoding.new_from_scalar s).distance (FaceEncoding.new_from_scalar s) = 0) :=
  distance_eq_zero_iff_eq (FaceEncoding.new_from_scalar 0) (FaceEncoding.new_from_scalar 1)
    (by simp only [FaceEncoding.new_from_scalar, FaceEncoding.size, List.length_replicate])
    (by simp only [FaceEncoding.new_from_scalar, FaceEncoding.size, List.length_replicate])

/-- C5: distance is symmetric, because each combined entry satisfies
`(x - y) ^ 2 = (y - x) ^ 2`. -/
theorem distance_symm (a b : FaceEncoding) : a.distance b = b.distance a := by
  unfold FaceEncoding.distance dlibLength matSub
  rw [List.map_zipWith, List.map_zipWith,
    List.zipWith_comm_of_comm (fun x y => (x - y) ^ 2) (fun x y => by ring)
      a.inner b.inner]

/-- C6: constructing an encoding from an explicit 128-element array and
reading the elements back, via `to_elements` or via the dereferenced
sequence, yields the identical array in the same order. -/
theorem new_round_trip (f : Fin 128 → ℝ) :
    (FaceEncoding.new f).to_elements = f ∧
      (FaceEncoding.new f).deref = List.ofFn f := by
  constructor
  · funext i
    unfold FaceEncoding.to_elements FaceEncoding.new
    rw [List.getD_eq_getElem _ _ (by rw [List.length_ofFn]; exact i.isLt),
      List.getElem_ofFn]
  · rw [deref_eq_inner]
    rfl

/-- C7: the scalar constructor fills all 128 positions with the scalar,
and agrees with `new` applied to the constant array of 128 copies of the
scalar. -/
theorem new_from_scalar_broadcast (s : ℝ) :
    (∀ i : Fin 128, (FaceEncoding.new_from_scalar s).to_elements i = s) ∧
      FaceEncoding.new_from_scalar s = FaceEncoding.new fun _ => s := by
  constructor
  · intro i
    unfold FaceEncoding.to_elements FaceEncoding.new_from_scalar
    rw [List.getD_eq_getElem _ _ (by rw [List.length_replicate]; exact i.isLt),
      List.getElem_replicate]
  · unfold FaceEncoding.new_from_scalar FaceEncoding.new
    rw [List.ofFn_const]

/-- C8: the distance of any two encodings is non-negative, being a square
root. -/
theorem distance_nonneg (a b : FaceEncoding) : 0 ≤ a.distance b := by
  unfold FaceEncoding.distance dlibLength
  exact Real.sqrt_nonneg _

/-- C9: the distance between the encodings of scalars `0` and `1` is the
square root of 128. -/
theorem distance_scalar_zero_one :
    (FaceEncoding.new_from_scalar 0).distance (FaceEncoding.new_from_scalar 1) =
      Real.sqrt 128 := by
  unfold FaceEncoding.distance dlibLength matSub FaceEncoding.new_from_scalar
  rw [List.zipWith_replicate, List.map_replicate, List.sum_replicate]
  norm_num

end DlibFace
